import Mathlib

/-!
Verification of the `pbf` OpenStreetMap PBF codec (Go) against its
natural-language specification.

This file shallowly embeds the parts of the source that the claims are
about:

* `internal/encoder/primitive.go` — `calcDeltas`, `calcTagIDs`,
  `blockContext.extractDenseNodes` / `extractWays` / `extractRelations` /
  `extractPrimitiveBlock`, `toInfoPb`, `fromTimestamp`;
* `internal/encoder/table.go` — `Strings.CalcTable`, `Table.IndexOf`;
* `internal/decoder/primitive.go` — the delta prefix-sum decoders,
  `tagsContext.decodeTags`, `denseInfoContext.decodeInfo`,
  `blockContext.decodeInfo`, `toTimestamp`;
* `internal/decoder/blob.go` + the blob `unpack` function;
* `internal/decoder/header.go` — `LoadHeader`;
* `model/bbox.go` — `BoundingBox` expansion;
* the encode-side error latch (`Encoder.doClose` / `consumeStatuses` /
  `Close`).

Conventions of the embedding:

* Go's `int64`/`int32` are modelled as `Int` together with explicit
  two's-complement wrapping (`wrap 64` / `wrap 32`) exactly where the Go
  code can overflow (Go signed arithmetic wraps).
* Go strings are modelled as `List Char`; Go's byte-wise lexicographic
  string order coincides with the code-point lexicographic order used
  here (UTF-8 preserves code-point order).
* Go `map` values are modelled as association lists carrying an explicit
  iteration order; set-like maps are modelled as the `dedup` of the list
  of inserted values.
* Code that can panic (out-of-range slice index, nil dereference) is
  modelled with `Option`/`Except`, `none`/`.error` standing for the panic.
* `time.Time` values are modelled by their milliseconds-since-Unix-epoch
  instant (an `Int`); `time.UnixMilli(x).UTC()` is injective in `x`, so
  this is faithful for equality of decoded timestamps.
-/

namespace PBF

/-! ## Two's-complement wrapping -/

/-- Two's-complement wrap of an integer to a `w`-bit signed value, the
semantics of overflowing Go `intN` arithmetic. -/
def wrap (w : Nat) (x : Int) : Int :=
  (x + 2 ^ (w - 1)) % 2 ^ w - 2 ^ (w - 1)

theorem wrap_eq_self {w : Nat} {x : Int} (hw : 1 ≤ w)
    (h1 : -(2 ^ (w - 1)) ≤ x) (h2 : x < 2 ^ (w - 1)) : wrap w x = x := by
  unfold wrap
  have hsplit : (2 : Int) ^ w = 2 ^ (w - 1) * 2 := by
    rw [← pow_succ]
    congr 1
    omega
  have h0 : (0 : Int) ≤ x + 2 ^ (w - 1) := by linarith
  have hlt : x + 2 ^ (w - 1) < 2 ^ w := by
    rw [hsplit]; linarith
  rw [Int.emod_eq_of_lt h0 hlt]
  ring

theorem wrap_congr {w : Nat} {a b : Int} (h : a % 2 ^ w = b % 2 ^ w) :
    wrap w a = wrap w b := by
  unfold wrap
  have : (a + 2 ^ (w - 1)) % 2 ^ w = (b + 2 ^ (w - 1)) % 2 ^ w := by
    rw [Int.add_emod, h, ← Int.add_emod]
  rw [this]

theorem wrap_emod {w : Nat} (x : Int) : wrap w x % 2 ^ w = x % 2 ^ w := by
  unfold wrap
  rw [Int.sub_emod, Int.emod_emod_of_dvd _ dvd_rfl, ← Int.sub_emod]
  congr 1
  ring

theorem wrap_add_left {w : Nat} (a b : Int) :
    wrap w (wrap w a + b) = wrap w (a + b) := by
  refine wrap_congr ?_
  rw [Int.add_emod, wrap_emod, ← Int.add_emod]


/-- Wrap to Go `int64`. -/
def wrap64 (x : Int) : Int := wrap 64 x

/-- Wrap to Go `int32`. -/
def wrap32 (x : Int) : Int := wrap 32 x

theorem wrap64_add_left (a b : Int) :
    wrap64 (wrap64 a + b) = wrap64 (a + b) :=
  wrap_add_left a b

theorem wrap64_eq_self {x : Int} (h1 : -(2 ^ 63) ≤ x) (h2 : x < 2 ^ 63) :
    wrap64 x = x :=
  wrap_eq_self (by norm_num) h1 h2

theorem wrap32_eq_self {x : Int} (h1 : -(2 ^ 31) ≤ x) (h2 : x < 2 ^ 31) :
    wrap32 x = x :=
  wrap_eq_self (by norm_num) h1 h2

/-! ## Delta encoding (C1)

`calcDeltas` is the generic delta encoder of
`internal/encoder/primitive.go`:

```go
func calcDeltas[T ...](values []T) []T {
    prev := T(0)
    deltas := make([]T, len(values))
    for i, id := range values {
        deltas[i] = id - prev
        prev = id
    }
    return deltas
}
```

instantiated at `int64` (Go subtraction wraps).  The decoders
(`decodeWays`, `decodeDenseNodes`, `decodeMembers`,
`denseInfoContext.decodeInfo`) reconstruct by a running prefix sum that
starts from zero, e.g. in `decodeWays`:

```go
var nodeID int64
for j, delta := range refs {
    nodeID = delta + nodeID
    nodeIDs[j] = model.ID(nodeID)
}
```
-/

/-- `calcDeltas` with explicit previous value (`prev` starts at 0). -/
def calcDeltasAux (prev : Int) : List Int → List Int
  | [] => []
  | v :: rest => wrap64 (v - prev) :: calcDeltasAux v rest

/-- `calcDeltas` from `internal/encoder/primitive.go`, at `int64`. -/
def calcDeltas (values : List Int) : List Int :=
  calcDeltasAux 0 values

/-- The running prefix sum with explicit accumulator, as in the
`decodeWays` loop (`nodeID = delta + nodeID`, starting from zero). -/
def decodeDeltasAux (acc : Int) : List Int → List Int
  | [] => []
  | d :: rest =>
    let acc' := wrap64 (d + acc)
    acc' :: decodeDeltasAux acc' rest

/-- Delta decoding: running prefix sum from zero, as the way-reference,
dense-node, member-id and dense-info decoders do. -/
def decodeDeltas (deltas : List Int) : List Int :=
  decodeDeltasAux 0 deltas

/-- Predicate: every element is a representable `int64` value. -/
def AllInt64 (v : List Int) : Prop :=
  ∀ x ∈ v, -(2 ^ 63) ≤ x ∧ x < 2 ^ 63

instance : DecidablePred AllInt64 := fun v =>
  inferInstanceAs (Decidable (∀ x ∈ v, _ ∧ _))

theorem decodeDeltasAux_calcDeltasAux (v : List Int) :
    ∀ prev : Int, AllInt64 v →
      decodeDeltasAux prev (calcDeltasAux prev v) = v := by
  induction v with
  | nil => intro prev _; rfl
  | cons x rest ih =>
    intro prev h
    have hx : -(2 ^ 63) ≤ x ∧ x < 2 ^ 63 := h x (List.mem_cons_self x rest)
    have hrest : AllInt64 rest := fun y hy => h y (List.mem_cons_of_mem _ hy)
    simp only [calcDeltasAux, decodeDeltasAux]
    have hacc : wrap64 (wrap64 (x - prev) + prev) = x := by
      unfold wrap64
      rw [wrap_add_left, sub_add_cancel]
      exact wrap64_eq_self hx.1 hx.2
    rw [hacc]
    exact congrArg (x :: ·) (ih x hrest)

/-- C1 — Delta round-trip identity: decoding the delta encoding of any
vector of representable `int64` values by a running prefix sum from zero
yields the vector back, and the first delta equals the first element. -/
theorem delta_roundtrip (v : List Int) (h : AllInt64 v) :
    decodeDeltas (calcDeltas v) = v ∧ (calcDeltas v).head? = v.head? := by
  constructor
  · exact decodeDeltasAux_calcDeltasAux v 0 h
  · cases v with
    | nil => rfl
    | cons x rest =>
      simp only [calcDeltas, calcDeltasAux, List.head?]
      have hx := h x (List.mem_cons_self x rest)
      rw [sub_zero, wrap64_eq_self hx.1 hx.2]

/-- Witness for `delta_roundtrip` at a concrete vector. -/
theorem delta_roundtrip_witness :
    AllInt64 [3, -5, 9223372036854775807, 12] ∧
      (decodeDeltas (calcDeltas [3, -5, 9223372036854775807, 12]) =
          [3, -5, 9223372036854775807, 12] ∧
        (calcDeltas [3, -5, 9223372036854775807, 12]).head? = some 3) :=
  ⟨by decide, delta_roundtrip [3, -5, 9223372036854775807, 12] (by decide)⟩

/-! ## Bounding boxes (C8)

From `model/bbox.go`.  `Degrees` is Go `float64`; box expansion only ever
compares and copies coordinates (no arithmetic), so the order structure is
all that matters and coordinates are modelled as rationals (ℚ is a linear
order containing every finite `float64` with the same comparisons). -/

/-- `model.BoundingBox`. -/
structure BoundingBox where
  top : ℚ
  left : ℚ
  bottom : ℚ
  right : ℚ
  deriving DecidableEq

/-- `model.InitialBoundingBox()`: the intentionally inverted box
`{Top: MinLat, Left: MaxLon, Bottom: MaxLat, Right: MinLon}`. -/
def InitialBoundingBox : BoundingBox :=
  { top := -90, left := 180, bottom := 90, right := -180 }

/-- `BoundingBox.ExpandWithLatLng` from `model/bbox.go`. -/
def ExpandWithLatLng (b : BoundingBox) (lat lng : ℚ) : BoundingBox :=
  { top := if b.top < lat then lat else b.top
    bottom := if b.bottom > lat then lat else b.bottom
    left := if b.left > lng then lng else b.left
    right := if b.right < lng then lng else b.right }

/-- `BoundingBox.ExpandWithBoundingBox` from `model/bbox.go`. -/
def ExpandWithBoundingBox (b bbox : BoundingBox) : BoundingBox :=
  { top := if b.top < bbox.top then bbox.top else b.top
    bottom := if b.bottom > bbox.bottom then bbox.bottom else b.bottom
    left := if b.left > bbox.left then bbox.left else b.left
    right := if b.right < bbox.right then bbox.right else b.right }

/-- The spec's box invariant: `bottom ≤ top` and `left ≤ right`. -/
def BoxValid (b : BoundingBox) : Prop :=
  b.bottom ≤ b.top ∧ b.left ≤ b.right

instance : DecidablePred BoxValid := fun b =>
  inferInstanceAs (Decidable (b.bottom ≤ b.top ∧ b.left ≤ b.right))

/-- One box widens another: every bound is at least as far out. -/
def BoxWidens (b b' : BoundingBox) : Prop :=
  b.top ≤ b'.top ∧ b'.bottom ≤ b.bottom ∧ b'.left ≤ b.left ∧ b.right ≤ b'.right

/-- C8 counterexample — the claim asserts that *every* expand operation on
*every* box (the inverted `InitialBoundingBox` included) yields a box with
`bottom ≤ top` and `left ≤ right`; but expanding the initial box with the
initial box leaves it inverted. -/
theorem bbox_expand_invariant_counterexample :
    (ExpandWithBoundingBox InitialBoundingBox InitialBoundingBox).top <
        (ExpandWithBoundingBox InitialBoundingBox InitialBoundingBox).bottom ∧
      (ExpandWithBoundingBox InitialBoundingBox InitialBoundingBox).right <
        (ExpandWithBoundingBox InitialBoundingBox InitialBoundingBox).left := by
  decide

/-- C8 amended — `ExpandWithLatLng` establishes the invariant
unconditionally: the result always sandwiches the new point
(`bottom ≤ lat ≤ top`, `left ≤ lng ≤ right`), so it is always a valid
box; both operations monotonically widen the receiver, whatever the
operands (the inverted `InitialBoundingBox` included); and
`ExpandWithBoundingBox` yields a valid box whenever at least one operand
is valid (in particular, widening the inverted `InitialBoundingBox` with
any valid box restores the invariant). -/
theorem bbox_expand_invariant (b o : BoundingBox) (lat lng : ℚ) :
    ((ExpandWithLatLng b lat lng).bottom ≤ lat ∧
        lat ≤ (ExpandWithLatLng b lat lng).top ∧
        (ExpandWithLatLng b lat lng).left ≤ lng ∧
        lng ≤ (ExpandWithLatLng b lat lng).right) ∧
      BoxValid (ExpandWithLatLng b lat lng) ∧
      BoxWidens b (ExpandWithLatLng b lat lng) ∧
      BoxWidens b (ExpandWithBoundingBox b o) ∧
      (BoxValid b ∨ BoxValid o → BoxValid (ExpandWithBoundingBox b o)) := by
  unfold BoxValid BoxWidens ExpandWithLatLng ExpandWithBoundingBox
  refine ⟨⟨?_, ?_, ?_, ?_⟩, ⟨?_, ?_⟩, ⟨?_, ?_, ?_, ?_⟩, ⟨?_, ?_, ?_, ?_⟩, ?_⟩ <;>
  first
  | (dsimp only
     split_ifs <;> linarith)
  | (intro h
     refine ⟨?_, ?_⟩ <;> dsimp only <;>
       rcases h with ⟨h1, h2⟩ | ⟨h1, h2⟩ <;> split_ifs <;> linarith)

/-- Witness for `bbox_expand_invariant`: expanding the inverted initial
box by a point and by a valid box; the final conjunct's hypothesis is
discharged with the valid second operand. -/
theorem bbox_expand_invariant_witness :
    (((ExpandWithLatLng InitialBoundingBox 5 6).bottom ≤ 5 ∧
        (5 : ℚ) ≤ (ExpandWithLatLng InitialBoundingBox 5 6).top ∧
        (ExpandWithLatLng InitialBoundingBox 5 6).left ≤ 6 ∧
        (6 : ℚ) ≤ (ExpandWithLatLng InitialBoundingBox 5 6).right) ∧
      BoxValid (ExpandWithLatLng InitialBoundingBox 5 6) ∧
      BoxWidens InitialBoundingBox (ExpandWithLatLng InitialBoundingBox 5 6) ∧
      BoxWidens InitialBoundingBox
        (ExpandWithBoundingBox InitialBoundingBox ⟨1, 2, 0, 3⟩) ∧
      (BoxValid InitialBoundingBox ∨ BoxValid ⟨1, 2, 0, 3⟩ →
        BoxValid (ExpandWithBoundingBox InitialBoundingBox ⟨1, 2, 0, 3⟩))) ∧
      (BoxValid InitialBoundingBox ∨ BoxValid (⟨1, 2, 0, 3⟩ : BoundingBox)) ∧
      BoxValid (ExpandWithBoundingBox InitialBoundingBox ⟨1, 2, 0, 3⟩) :=
  ⟨bbox_expand_invariant InitialBoundingBox ⟨1, 2, 0, 3⟩ 5 6,
    Or.inr (by decide),
    (bbox_expand_invariant InitialBoundingBox ⟨1, 2, 0, 3⟩ 5 6).2.2.2.2
      (Or.inr (by decide))⟩

/-! ## Blob unpacking (C5)

From `unpack` in the decoder's blob-decompression file:

```go
func unpack(buf *core.PooledBuffer, blob *pb.Blob) ([]byte, error) {
    var factory func(blob *pb.Blob) (io.Reader, error)
    switch blob.Data.(type) {
    case *pb.Blob_Raw:
        return blob.GetRaw(), nil
    case *pb.Blob_ZlibData: ...
    case *pb.Blob_LzmaData: ...
    case *pb.Blob_Lz4Data: ...
    case *pb.Blob_ZstdData: ...
    default:
        return nil, ErrUnknownCompressionType
    }
    ...
    if n, err := buf.ReadFrom(rdr); err != nil {
        return nil, ...
    } else if n != int64(blob.GetRawSize()) {
        return nil, fmt.Errorf("raw blob data size %d but expected %d", ...)
    }
    return buf.Bytes(), nil
}
```

The four real decompressors (zlib, lzma, lz4, zstd) are external
libraries; they are abstracted as a function
`dec : CompKind → List Nat → Option (List Nat)` (`none` = factory or read
error), exactly the role the `factory`/`ReadFrom` pair plays. -/

/-- The compressed payload variants of `pb.Blob`. -/
inductive CompKind
  | zlib
  | lzma
  | lz4
  | zstd
  deriving DecidableEq

/-- `pb.Blob.Data`: the payload oneof (or unset). -/
inductive BlobData
  | raw (b : List Nat)
  | compressed (k : CompKind) (b : List Nat)
  | unset
  deriving DecidableEq

/-- `pb.Blob`: payload plus the declared uncompressed size. -/
structure Blob where
  data : BlobData
  rawSize : Int
  deriving DecidableEq

inductive UnpackError
  | unknownCompressionType
  | readerError
  | sizeMismatch
  deriving DecidableEq

/-- `unpack`: RAW payloads are returned directly; compressed payloads are
decompressed and the result's length is checked against `rawSize`. -/
def unpack (dec : CompKind → List Nat → Option (List Nat)) (blob : Blob) :
    Except UnpackError (List Nat) :=
  match blob.data with
  | .raw b => .ok b
  | .compressed k b =>
    match dec k b with
    | none => .error .readerError
    | some out =>
      if (out.length : Int) ≠ blob.rawSize then .error .sizeMismatch
      else .ok out
  | .unset => .error .unknownCompressionType

/-- C5 counterexample — the claim asserts the size check for *every*
recognized variant, RAW included; but `unpack` returns a RAW payload
directly, so a RAW blob whose payload length disagrees with `raw_size`
decodes without any error. -/
theorem unpack_raw_skips_size_check_counterexample :
    unpack (fun _ _ => none) { data := .raw [7], rawSize := 2 } = .ok [7] ∧
      (([7] : List Nat).length : Int) ≠ 2 := by
  constructor
  · rfl
  · decide

/-- C5 amended — for each *compressed* variant (ZLIB, LZMA, LZ4, ZSTD),
`unpack` yields the decompressed bytes when their length equals
`raw_size` and fails with the size-mismatch error otherwise; a RAW
payload is returned as-is with no size verification; an unset payload
fails with the unknown-compression error. -/
theorem unpack_size_check (dec : CompKind → List Nat → Option (List Nat))
    (k : CompKind) (b out : List Nat) (rs : Int) (hdec : dec k b = some out) :
    unpack dec { data := .compressed k b, rawSize := rs } =
        (if (out.length : Int) = rs then .ok out else .error .sizeMismatch) ∧
      unpack dec { data := .raw b, rawSize := rs } = .ok b ∧
      unpack dec { data := .unset, rawSize := rs } =
        .error .unknownCompressionType := by
  refine ⟨?_, rfl, rfl⟩
  simp only [unpack, hdec, ite_not]

/-- Witness for `unpack_size_check` with an identity decompressor. -/
theorem unpack_size_check_witness :
    (fun (_ : CompKind) (x : List Nat) => some x) CompKind.zlib [4, 5] = some [4, 5] ∧
      (unpack (fun _ x => some x) { data := .compressed .zlib [4, 5], rawSize := 3 } =
          (if (([4, 5] : List Nat).length : Int) = 3 then .ok [4, 5]
            else .error .sizeMismatch) ∧
        unpack (fun _ x => some x) { data := .raw [4, 5], rawSize := 3 } = .ok [4, 5] ∧
        unpack (fun _ x => some x) { data := .unset, rawSize := 3 } =
          .error .unknownCompressionType) :=
  ⟨rfl, unpack_size_check (fun _ x => some x) .zlib [4, 5] [4, 5] 3 rfl⟩

/-! ## Header loading (C6)

From `LoadHeader` in `internal/decoder/header.go`:

```go
func LoadHeader(reader io.Reader) (model.Header, error) {
    buf := core.NewPooledBuffer()
    defer buf.Close()
    blob, err := readBlob(reader)          // reads BlobHeader + Blob
    if err != nil { ... }
    unpacked, err := unpack(buf, blob)
    if err != nil { ... }
    var hb pb.HeaderBlock
    if err = proto.Unmarshal(unpacked, &hb); err != nil { ... }
    hdr := model.Header{ ... }
    ...
    return hdr, nil
}
```

The frame's `BlobHeader.type` is read by `readBlob` (for `Datasize`) but
is *never compared against "OSMHeader"* anywhere in the function or its
callees.  The protobuf unmarshal of the payload is external; we model its
outcome as `Option HeaderBlockPB` (`none` = unmarshal error).  Note that
unmarshalling an empty byte payload always succeeds and yields the
default (all-fields-unset) `HeaderBlock`. -/

/-- Go strings, modelled as character lists (§conventions). -/
abbrev GoStr := List Char

/-- Modelled from the spec: `model.ToDegrees` (the active `model` file
defining it is not under `src/`; only callers and a test copy are).  The
spec's fixed-point rule is `nano_degrees = 1e-9 × (offset + granularity ×
raw)`. -/
def ToDegrees (offset granularity coordinate : Int) : ℚ :=
  ((offset + granularity * coordinate : Int) : ℚ) / 1000000000

/-- The milliseconds-since-epoch instant of Go's zero `time.Time`
(January 1, year 1, 00:00:00 UTC). -/
def goTimeZeroMs : Int := -62135596800000

/-- `pb.HeaderBlock` (fields used by `LoadHeader`); `bbox` carries the
raw nano-degree `left, right, top, bottom`. -/
structure HeaderBlockPB where
  bbox : Option (Int × Int × Int × Int)
  requiredFeatures : List GoStr
  optionalFeatures : List GoStr
  writingprogram : GoStr
  source : GoStr
  osmosisReplicationTimestamp : Option Int
  osmosisReplicationSequenceNumber : Int
  osmosisReplicationBaseUrl : GoStr
  deriving DecidableEq

/-- `model.Header` (timestamp as a milliseconds instant). -/
structure Header where
  boundingBox : Option BoundingBox
  requiredFeatures : List GoStr
  optionalFeatures : List GoStr
  writingProgram : GoStr
  source : GoStr
  osmosisReplicationTimestampMs : Int
  osmosisReplicationSequenceNumber : Int
  osmosisReplicationBaseUrl : GoStr
  deriving DecidableEq

inductive LoadHeaderError
  | readBlob
  | unpack
  | unmarshal
  deriving DecidableEq

/-- `LoadHeader`, given the first frame's `BlobHeader.type` and the
result of unmarshalling its unpacked payload as a `HeaderBlock`.  The
source never inspects `btype`. -/
def LoadHeader (btype : GoStr) (payload : Option HeaderBlockPB) :
    Except LoadHeaderError Header :=
  match payload with
  | none => .error .unmarshal
  | some hb =>
    .ok
      { boundingBox :=
          hb.bbox.map fun (l, r, t, b) =>
            { left := ToDegrees 0 1 l, right := ToDegrees 0 1 r
              top := ToDegrees 0 1 t, bottom := ToDegrees 0 1 b }
        requiredFeatures := hb.requiredFeatures
        optionalFeatures := hb.optionalFeatures
        writingProgram := hb.writingprogram
        source := hb.source
        osmosisReplicationTimestampMs :=
          match hb.osmosisReplicationTimestamp with
          | none => goTimeZeroMs
          | some ts => ts * 1000
        osmosisReplicationSequenceNumber := hb.osmosisReplicationSequenceNumber
        osmosisReplicationBaseUrl := hb.osmosisReplicationBaseUrl }

/-- The default (all-unset) `pb.HeaderBlock`, the result of unmarshalling
an empty payload. -/
def emptyHeaderBlockPB : HeaderBlockPB :=
  { bbox := none, requiredFeatures := [], optionalFeatures := []
    writingprogram := [], source := [], osmosisReplicationTimestamp := none
    osmosisReplicationSequenceNumber := 0, osmosisReplicationBaseUrl := [] }

/-- C6 — the claim (and the spec's §4.D/§7) require the decoder to fail
with `MissingHeader` whenever the first frame's `BlobHeader.type` is not
`"OSMHeader"`.  The code has no such check: a first frame typed
`"OSMData"` whose blob payload unmarshals as a (default) `HeaderBlock` —
e.g. an empty RAW payload — yields a `Header` with no error at all. -/
theorem loadHeader_ignores_blob_type :
    LoadHeader ['O', 'S', 'M', 'D', 'a', 't', 'a'] (some emptyHeaderBlockPB) =
        .ok
          { boundingBox := none, requiredFeatures := [], optionalFeatures := []
            writingProgram := [], source := []
            osmosisReplicationTimestampMs := goTimeZeroMs
            osmosisReplicationSequenceNumber := 0
            osmosisReplicationBaseUrl := [] } ∧
      (['O', 'S', 'M', 'D', 'a', 't', 'a'] : GoStr) ≠
        ['O', 'S', 'M', 'H', 'e', 'a', 'd', 'e', 'r'] := by
  constructor
  · rfl
  · decide

/-! ## Encode-side error latch (C9)

From the v2 `Encoder`:

```go
func (e *Encoder) Close() {
    e.doClose(io.EOF)
    e.closed.Wait()
}

func (e *Encoder) doClose(err error) {
    e.close.Do(func() {
        e.err = err
        close(e.Entities)
    })
}

func (e *Encoder) consumeStatuses(statuses <-chan rill.Try[struct{}]) {
    ...
    } else if status.Error != nil {
        slog.Error("Got status error", "status", status)
        e.doClose(status.Error)
    }
    ...
}
```

The status channel is consumed by a single goroutine, so the latch sees a
sequence of per-block statuses (`none` = block written OK, `some err` =
block write failed).  `sync.Once` makes the first `doClose` the only
effective one; it both records the error and closes the entity channel.
Crucially, `Close()` has *no return value*, and the latched `e.err` field
is never read anywhere in the package. -/

/-- The goroutine-visible latch state of the `Encoder`: the `err` field
and the once-guarded "entity channel closed" flag (both are set together
inside `close.Do`). -/
structure EncState where
  err : Option GoStr
  entitiesClosed : Bool
  deriving DecidableEq

def initialEncState : EncState := { err := none, entitiesClosed := false }

/-- `Encoder.doClose`: under `sync.Once`, only the first call latches. -/
def doClose (e : EncState) (err : GoStr) : EncState :=
  if e.entitiesClosed then e else { err := some err, entitiesClosed := true }

/-- `Encoder.consumeStatuses` over a finite status sequence. -/
def consumeStatuses (e : EncState) (statuses : List (Option GoStr)) : EncState :=
  statuses.foldl
    (fun st s =>
      match s with
      | none => st
      | some err => doClose st err)
    e

/-- `io.EOF`, the sentinel `Encoder.Close` feeds to `doClose`. -/
def ioEOF : GoStr := ['E', 'O', 'F']

/-- `Encoder.Close`: `doClose(io.EOF)` then wait; the latch state after
closing. -/
def CloseEnc (e : EncState) : EncState := doClose e ioEOF

/-- The error value `Encoder.Close` hands back to the caller.  The Go
signature is `func (e *Encoder) Close()` — there is no return value, so
the caller always observes nothing, whatever was latched. -/
def closeReturn (_ : EncState) : Option GoStr := none

theorem consumeStatuses_closed (statuses : List (Option GoStr)) (e : EncState)
    (h : e.entitiesClosed = true) : consumeStatuses e statuses = e := by
  induction statuses with
  | nil => rfl
  | cons s rest ih =>
    cases s with
    | none => exact ih
    | some err =>
      show consumeStatuses (doClose e err) rest = e
      rw [doClose, h, if_pos rfl, ih]

/-- C9 counterexample — the claim says the encoder's close operation
returns the first latched error; but `Close()` has no return value: after
a failed second block the latch holds the error, yet the value returned
to the caller is `none`, not the latched error. -/
theorem encoder_close_returns_nothing_counterexample :
    (consumeStatuses initialEncState [none, some ['b', 'o', 'o', 'm']]).err =
        some ['b', 'o', 'o', 'm'] ∧
      closeReturn
          (CloseEnc (consumeStatuses initialEncState
            [none, some ['b', 'o', 'o', 'm']])) = none ∧
      (none : Option GoStr) ≠ some ['b', 'o', 'o', 'm'] := by
  refine ⟨rfl, rfl, ?_⟩
  decide

/-- C9 amended — the first error seen by the status consumer closes the
entity channel and is latched into the encoder's `err` field; every later
error is dropped; a subsequent `Close()` leaves the latch unchanged (or
latches `io.EOF` when no error occurred); but `Close()` returns no value,
so the latched error is never returned to the caller. -/
theorem encoder_first_error_latched (statuses : List (Option GoStr)) :
    (consumeStatuses initialEncState statuses).err = statuses.findSome? id ∧
      (consumeStatuses initialEncState statuses).entitiesClosed =
        statuses.any Option.isSome ∧
      (CloseEnc (consumeStatuses initialEncState statuses)).err =
        some ((statuses.findSome? id).getD ioEOF) ∧
      closeReturn (CloseEnc (consumeStatuses initialEncState statuses)) = none := by
  have key : ∀ (l : List (Option GoStr)),
      consumeStatuses initialEncState l =
        match l.findSome? id with
        | none => initialEncState
        | some e => { err := some e, entitiesClosed := true } := by
    intro l
    induction l with
    | nil => rfl
    | cons s rest ih =>
      cases s with
      | none =>
        show consumeStatuses initialEncState rest = _
        rw [ih]
        rfl
      | some err =>
        show consumeStatuses (doClose initialEncState err) rest = _
        rw [show doClose initialEncState err =
              { err := some err, entitiesClosed := true } from rfl,
          consumeStatuses_closed _ _ rfl]
        rfl

  have hclosed : ∀ (l : List (Option GoStr)),
      (l.findSome? id).isSome = l.any Option.isSome := by
    intro l
    induction l with
    | nil => rfl
    | cons s rest ih =>
      cases s with
      | none => simpa using ih
      | some e => simp
  rw [key statuses]
  rcases hf : statuses.findSome? id with _ | e
  · have : statuses.any Option.isSome = false := by
      rw [← hclosed, hf]; rfl
    simp [this, CloseEnc, doClose, initialEncState, closeReturn]
  · have : statuses.any Option.isSome = true := by
      rw [← hclosed, hf]; rfl
    simp [this, CloseEnc, doClose, closeReturn]

/-! ## Info and dense-info decoding (C3, C4)

From `internal/decoder/primitive.go`.  Timestamps:

```go
// toTimestamp converts a timestamp with a specific granularity, in units
// of milliseconds, to a UTC timestamp of type Time.
func toTimestamp(granularity int32, timestamp int32) time.Time {
    return time.UnixMilli(int64(timestamp) * int64(granularity)).UTC()
}
```

Sparse entities (`blockContext.decodeInfo`) pass `info.GetTimestamp()`
(an `int32` protobuf field) directly; dense nodes
(`denseInfoContext.decodeInfo`) keep an `int64` running sum of the
`int64` deltas and pass `int32(dic.timestamp)` — a truncating cast. -/

/-- Slice indexing `strings[i]` with an `int32`/`int64` index; negative
and out-of-range indices panic in Go (`none` here). -/
def strAt (strings : List GoStr) (i : Int) : Option GoStr :=
  if 0 ≤ i then strings[i.toNat]? else none

/-- `toTimestamp(granularity, timestamp)` as a milliseconds instant: both
arguments are `int32`, multiplied exactly at 64 bits. -/
def toTimestampMs (granularity timestamp : Int) : Int :=
  timestamp * granularity

/-- Decoded `model.Info` (timestamp as a milliseconds instant). -/
structure Info where
  version : Int
  uid : Int
  timestampMs : Int
  changeset : Int
  user : GoStr
  visible : Bool
  deriving DecidableEq

/-- `pb.Info` (sparse-entity provenance): `version`, `timestamp`, `uid`,
`user_sid` are `int32` fields, `changeset` is `int64`, `visible` is an
optional bool. -/
structure InfoPB where
  version : Int
  timestamp : Int
  changeset : Int
  uid : Int
  userSid : Int
  visible : Option Bool
  deriving DecidableEq

/-- `blockContext.decodeInfo`: a nil `*pb.Info` yields the zero Info with
`Visible: true`; otherwise fields map across, `User` is looked up in the
string table, and `Visible` defaults to true when unset. -/
def decodeInfo (dateGranularity : Int) (strings : List GoStr) :
    Option InfoPB → Option Info
  | none =>
    some
      { version := 0, uid := 0, timestampMs := goTimeZeroMs, changeset := 0
        user := [], visible := true }
  | some info =>
    (strAt strings info.userSid).map fun u =>
      { version := info.version
        uid := info.uid
        timestampMs := toTimestampMs dateGranularity info.timestamp
        changeset := info.changeset
        user := u
        visible := info.visible.getD true }

/-- `pb.DenseInfo` (all parallel arrays; an absent `DenseInfo` has every
array empty, which is what `GetX()` on nil returns).  `version`, `uid`
and `user_sid` are `int32` columns, `timestamp` and `changeset` are
`int64` columns. -/
structure DenseInfoPB where
  version : List Int
  timestamp : List Int
  changeset : List Int
  uid : List Int
  userSid : List Int
  visible : List Bool
  deriving DecidableEq

/-- The running accumulators of `denseInfoContext`. -/
structure DIState where
  version : Int
  uid : Int
  timestamp : Int
  changeset : Int
  userSid : Int
  deriving DecidableEq

def initialDIState : DIState :=
  { version := 0, uid := 0, timestamp := 0, changeset := 0, userSid := 0 }

/-- `newDenseInfoContext`'s visibility normalization: both a nil and a
present-but-empty `visible` slice end up as nil (`none`); a non-empty
slice is kept. -/
def denseVisibilities (di : DenseInfoPB) : Option (List Bool) :=
  if di.visible.isEmpty then none else some di.visible

/-- The per-node visibility of `denseInfoContext.decodeInfo`: nil
`visibilities` means true, otherwise `dic.visibilities[i]` (out of range
panics). -/
def visLookup (vis : Option (List Bool)) (i : Nat) : Option Bool :=
  match vis with
  | none => some true
  | some arr => arr[i]?

/-- The visibility value a successful decode assigns to node `i`: true
when the visible array is absent, else its `i`-th entry. -/
def visExpected (vis : Option (List Bool)) (i : Nat) : Bool :=
  match vis with
  | none => true
  | some arr => arr.getD i false

/-- One call of `denseInfoContext.decodeInfo(i)`: bump the five running
sums by the `i`-th deltas (Go `int32`/`int64` addition wraps), then build
the Info; the timestamp is the running `int64` sum *cast to `int32`*
before `toTimestamp`. -/
def diStep (dateGranularity : Int) (strings : List GoStr) (di : DenseInfoPB)
    (vis : Option (List Bool)) (st : DIState) (i : Nat) :
    Option (Info × DIState) :=
  (di.version[i]?).bind fun dv =>
  (di.uid[i]?).bind fun du =>
  (di.timestamp[i]?).bind fun dt =>
  (di.changeset[i]?).bind fun dc =>
  (di.userSid[i]?).bind fun ds =>
  (strAt strings (wrap32 (st.userSid + ds))).bind fun user =>
  (visLookup vis i).bind fun vb =>
    some
      ({ version := wrap32 (st.version + dv)
         uid := wrap32 (st.uid + du)
         timestampMs :=
           toTimestampMs dateGranularity (wrap32 (wrap64 (st.timestamp + dt)))
         changeset := wrap64 (st.changeset + dc)
         user := user
         visible := vb },
        { version := wrap32 (st.version + dv)
          uid := wrap32 (st.uid + du)
          timestamp := wrap64 (st.timestamp + dt)
          changeset := wrap64 (st.changeset + dc)
          userSid := wrap32 (st.userSid + ds) })

/-- The sequence of `decodeInfo(i)` calls for `i = start, start+1, …`
(`count` many), as issued by `decodeDenseNodes`'s loop over `ids`. -/
def decodeInfos (dateGranularity : Int) (strings : List GoStr)
    (di : DenseInfoPB) (vis : Option (List Bool)) :
    DIState → Nat → Nat → Option (List Info)
  | _, _, 0 => some []
  | st, i, count + 1 =>
    (diStep dateGranularity strings di vis st i).bind fun (info, st') =>
      (decodeInfos dateGranularity strings di vis st' (i + 1) count).map
        (info :: ·)

/-- All per-node Infos of a dense stream of `n` nodes (`n = len(id)`). -/
def decodeDenseInfoAll (dateGranularity : Int) (strings : List GoStr)
    (di : DenseInfoPB) (n : Nat) : Option (List Info) :=
  decodeInfos dateGranularity strings di (denseVisibilities di)
    initialDIState 0 n

theorem diStep_some (dg : Int) (ss : List GoStr) (di : DenseInfoPB)
    (vis : Option (List Bool)) (st : DIState) (i : Nat) (p : Info × DIState)
    (h : diStep dg ss di vis st i = some p) :
    (∃ dt, di.timestamp[i]? = some dt ∧
        p.2.timestamp = wrap64 (st.timestamp + dt)) ∧
      p.1.timestampMs = toTimestampMs dg (wrap32 p.2.timestamp) ∧
      p.1.visible = visExpected vis i ∧
      (∀ arr, vis = some arr → i < arr.length) := by
  unfold diStep at h
  rcases h1 : di.version[i]? with _ | dv <;> rw [h1] at h
  · exact Option.noConfusion h
  simp only [Option.some_bind] at h
  rcases h2 : di.uid[i]? with _ | du <;> rw [h2] at h
  · exact Option.noConfusion h
  simp only [Option.some_bind] at h
  rcases h3 : di.timestamp[i]? with _ | dt <;> rw [h3] at h
  · exact Option.noConfusion h
  simp only [Option.some_bind] at h
  rcases h4 : di.changeset[i]? with _ | dc <;> rw [h4] at h
  · exact Option.noConfusion h
  simp only [Option.some_bind] at h
  rcases h5 : di.userSid[i]? with _ | ds <;> rw [h5] at h
  · exact Option.noConfusion h
  simp only [Option.some_bind] at h
  rcases h6 : strAt ss (wrap32 (st.userSid + ds)) with _ | user <;> rw [h6] at h
  · exact Option.noConfusion h
  simp only [Option.some_bind] at h
  cases vis with
  | none =>
    simp only [visLookup, Option.some_bind, Option.some.injEq] at h
    subst h
    exact ⟨⟨dt, rfl, rfl⟩, rfl, rfl, fun arr harr => by cases harr⟩
  | some arr =>
    simp only [visLookup] at h
    rcases h7 : arr[i]? with _ | vb <;> rw [h7] at h
    · exact Option.noConfusion h
    simp only [Option.some_bind, Option.some.injEq] at h
    subst h
    have hlt : i < arr.length := by
      by_contra hge
      rw [List.getElem?_eq_none (by omega)] at h7
      cases h7
    refine ⟨⟨dt, rfl, rfl⟩, rfl, ?_, fun arr' harr' => by
      cases harr'; exact hlt⟩
    show vb = arr.getD i false
    rw [List.getD_eq_getElem?_getD, h7]
    rfl

theorem decodeInfos_spec (dg : Int) (ss : List GoStr) (di : DenseInfoPB)
    (vis : Option (List Bool)) :
    ∀ (c : Nat) (st : DIState) (i : Nat) (infos : List Info),
      decodeInfos dg ss di vis st i c = some infos →
      infos.length = c ∧
        (∀ j w, infos[j]? = some w →
          w.visible = visExpected vis (i + j) ∧
          w.timestampMs =
            wrap32 (wrap64 (st.timestamp +
              ((di.timestamp.drop i).take (j + 1)).sum)) * dg) ∧
        (∀ arr, vis = some arr → ∀ j, j < c → i + j < arr.length) := by
  intro c
  induction c with
  | zero =>
    intro st i infos h
    simp only [decodeInfos, Option.some.injEq] at h
    subst h
    refine ⟨rfl, ?_, ?_⟩
    · intro j w hw
      simp at hw
    · intro arr _ j hj
      omega
  | succ c ih =>
    intro st i infos h
    simp only [decodeInfos] at h
    rcases hstep : diStep dg ss di vis st i with _ | p <;> rw [hstep] at h
    · exact Option.noConfusion h
    simp only [Option.some_bind] at h
    rcases hrest : decodeInfos dg ss di vis p.2 (i + 1) c with _ | rest <;>
      rw [hrest] at h
    · exact Option.noConfusion h
    simp only [Option.map_some', Option.some.injEq] at h
    subst h
    obtain ⟨⟨dt, hdt, hts'⟩, htsms, hvb, hvis⟩ :=
      diStep_some dg ss di vis st i p hstep
    obtain ⟨hlen, hinfo, hbound⟩ := ih p.2 (i + 1) rest hrest
    have hlt : i < di.timestamp.length := by
      rcases List.getElem?_eq_some.mp hdt with ⟨hl, _⟩
      exact hl
    have hdrop : di.timestamp.drop i = dt :: di.timestamp.drop (i + 1) := by
      rw [List.drop_eq_getElem_cons hlt]
      congr 1
      rcases List.getElem?_eq_some.mp hdt with ⟨_, hg⟩
      exact hg
    refine ⟨by simp [hlen], ?_, ?_⟩
    · intro j w hw
      cases j with
      | zero =>
        simp only [List.getElem?_cons_zero, Option.some.injEq] at hw
        subst hw
        refine ⟨by simpa using hvb, ?_⟩
        rw [htsms, hts', hdrop]
        show wrap32 (wrap64 (st.timestamp + dt)) * dg = _
        rw [List.take_succ_cons, List.take_zero, List.sum_cons, List.sum_nil,
          add_zero]
      | succ j' =>
        simp only [List.getElem?_cons_succ] at hw
        obtain ⟨hv, ht⟩ := hinfo j' w hw
        constructor
        · rw [hv]
          congr 1
          omega
        · rw [ht, hts', hdrop, wrap64_add_left, List.take_succ_cons,
            List.sum_cons, add_assoc]
    · intro arr harr j hj
      cases j with
      | zero =>
        have := hvis arr harr
        omega
      | succ j' =>
        have := hbound arr harr j' (by omega)
        omega

/-- C3 counterexample — the claim says per-node visibility is used *iff*
`len(visible) == len(id)`, all nodes being visible otherwise.  Here a
one-node stream (`len(id) = 1`) carries `visible = [false, true]`
(`len(visible) = 2 ≠ 1`): the claim demands `Visible = true`, but the
decoder uses the array whenever it is non-empty and decodes the node as
not visible. -/
theorem dense_visibility_counterexample :
    (decodeDenseInfoAll 1000 [[]]
        { version := [0], timestamp := [0], changeset := [0], uid := [0]
          userSid := [0], visible := [false, true] } 1).map
        (List.map (·.visible)) = some [false] ∧
      ([false, true] : List Bool).length ≠ 1 := by
  constructor
  · decide
  · decide

/-- C3 amended — the decoder takes per-node visibility from the
`visible` array if and only if the array is *non-empty* (absent and
present-but-empty arrays both mean "all visible"); when it is non-empty,
node `j` receives `visible[j]`, and a successful decode forces the array
to cover every node index (`n ≤ len(visible)`); there is no
`len(visible) == len(id)` comparison. -/
theorem dense_visibility (dg : Int) (ss : List GoStr) (di : DenseInfoPB)
    (n : Nat) (infos : List Info)
    (h : decodeDenseInfoAll dg ss di n = some infos) :
    infos.length = n ∧
      (∀ j w, infos[j]? = some w →
        w.visible = if di.visible.isEmpty then true else di.visible.getD j false) ∧
      (di.visible.isEmpty = true ∨ n ≤ di.visible.length) := by
  obtain ⟨hlen, hinfo, hbound⟩ :=
    decodeInfos_spec dg ss di (denseVisibilities di) n initialDIState 0 infos h
  refine ⟨hlen, ?_, ?_⟩
  · intro j w hw
    have hv := (hinfo j w hw).1
    rw [hv]
    unfold visExpected denseVisibilities
    rcases he : di.visible.isEmpty with _ | _
    · simp only [Bool.false_eq_true, if_false]
      congr 1
      omega
    · simp only [if_true]
  · rcases he : di.visible.isEmpty with _ | _
    · right
      rcases n with _ | n'
      · omega
      · have := hbound di.visible (by rw [denseVisibilities, he]; rfl) n'
          (by omega)
        omega
    · exact Or.inl rfl

/-- C4 counterexample — the claim says `Info.Timestamp = raw_ts ×
date_granularity` for *every 64-bit* `raw_ts` that arises.  In the dense
path the running `int64` timestamp sum is cast to `int32` before the
multiplication (`toTimestamp(dic.dateGranularity, int32(dic.timestamp))`),
so a raw sum of `2^31` decodes to `-2^31 × 1000` milliseconds instead of
`2^31 × 1000`. -/
theorem dense_timestamp_truncation_counterexample :
    (decodeDenseInfoAll 1000 [[]]
        { version := [0], timestamp := [2147483648], changeset := [0]
          uid := [0], userSid := [0], visible := [] } 1).map
        (List.map (·.timestampMs)) = some [-2147483648000] ∧
      (-2147483648000 : Int) ≠ 2147483648 * 1000 := by
  constructor
  · decide
  · decide

/-- C4 amended — for sparse entities (nodes, ways, relations) the decoded
timestamp is exactly `raw_ts × date_granularity` milliseconds (the
protobuf field is `int32`); for dense nodes the decoded timestamp is
`int32(raw_ts) × date_granularity` where `raw_ts` is the wrapping `int64`
prefix sum of the deltas — equal to `raw_ts × date_granularity` exactly
when `raw_ts` fits in `int32`. -/
theorem timestamp_reconstruction (dg : Int) (ss : List GoStr)
    (pbi : InfoPB) (v : Info) (hs : decodeInfo dg ss (some pbi) = some v)
    (di : DenseInfoPB) (n : Nat) (infos : List Info)
    (hd : decodeDenseInfoAll dg ss di n = some infos) :
    v.timestampMs = pbi.timestamp * dg ∧
      ∀ j w, infos[j]? = some w →
        w.timestampMs = wrap32 (wrap64 ((di.timestamp.take (j + 1)).sum)) * dg ∧
          (-(2 ^ 31) ≤ (di.timestamp.take (j + 1)).sum →
            (di.timestamp.take (j + 1)).sum < 2 ^ 31 →
            w.timestampMs = (di.timestamp.take (j + 1)).sum * dg) := by
  constructor
  · simp only [decodeInfo] at hs
    rcases hu : strAt ss pbi.userSid with _ | u <;> rw [hu] at hs
    · exact Option.noConfusion hs
    simp only [Option.map_some', Option.some.injEq] at hs
    subst hs
    rfl
  · intro j w hw
    obtain ⟨_, hinfo, _⟩ :=
      decodeInfos_spec dg ss di (denseVisibilities di) n initialDIState 0
        infos hd
    have ht := (hinfo j w hw).2
    rw [show initialDIState.timestamp = 0 from rfl, zero_add,
      List.drop_zero] at ht
    refine ⟨ht, fun hlo hhi => ?_⟩
    rw [ht, wrap64_eq_self (by norm_num at hlo ⊢; linarith)
        (by norm_num at hhi ⊢; linarith),
      wrap32_eq_self hlo hhi]

/-- Witness for `dense_visibility` at a two-node stream with a matching
non-empty visible array. -/
theorem dense_visibility_witness :
    decodeDenseInfoAll 1000 [[]]
        { version := [0, 0], timestamp := [0, 0], changeset := [0, 0]
          uid := [0, 0], userSid := [0, 0], visible := [true, false] } 2 =
      some
        [{ version := 0, uid := 0, timestampMs := 0, changeset := 0
           user := [], visible := true },
          { version := 0, uid := 0, timestampMs := 0, changeset := 0
            user := [], visible := false }] ∧
      ([{ version := 0, uid := 0, timestampMs := 0, changeset := 0
          user := [], visible := true },
         { version := 0, uid := 0, timestampMs := 0, changeset := 0
           user := [], visible := false }] : List Info).length = 2 ∧
      (∀ j w,
        ([{ version := 0, uid := 0, timestampMs := 0, changeset := 0
            user := [], visible := true },
           { version := 0, uid := 0, timestampMs := 0, changeset := 0
             user := [], visible := false }] : List Info)[j]? = some w →
        w.visible =
          if ([true, false] : List Bool).isEmpty then true
          else ([true, false] : List Bool).getD j false) ∧
      (([true, false] : List Bool).isEmpty = true ∨
        2 ≤ ([true, false] : List Bool).length) :=
  ⟨by decide,
    dense_visibility 1000 [[]]
      { version := [0, 0], timestamp := [0, 0], changeset := [0, 0]
        uid := [0, 0], userSid := [0, 0], visible := [true, false] } 2 _
      (by decide)⟩

/-- Witness for `timestamp_reconstruction` at a sparse info with raw
timestamp 5 and a one-node dense stream with raw timestamp 7, both at
`date_granularity = 1000`. -/
theorem timestamp_reconstruction_witness :
    decodeInfo 1000 [[]]
        (some { version := 1, timestamp := 5, changeset := 2, uid := 3
                userSid := 0, visible := none }) =
      some { version := 1, uid := 3, timestampMs := 5000, changeset := 2
             user := [], visible := true } ∧
      decodeDenseInfoAll 1000 [[]]
          { version := [0], timestamp := [7], changeset := [0], uid := [0]
            userSid := [0], visible := [] } 1 =
        some [{ version := 0, uid := 0, timestampMs := 7000, changeset := 0
                user := [], visible := true }] ∧
      ({ version := 1, uid := 3, timestampMs := 5000, changeset := 2
         user := [], visible := true } : Info).timestampMs = 5 * 1000 :=
  ⟨by decide, by decide,
    (timestamp_reconstruction 1000 [[]]
      { version := 1, timestamp := 5, changeset := 2, uid := 3
        userSid := 0, visible := none }
      { version := 1, uid := 3, timestampMs := 5000, changeset := 2
        user := [], visible := true }
      (by decide)
      { version := [0], timestamp := [7], changeset := [0], uid := [0]
        userSid := [0], visible := [] } 1
      [{ version := 0, uid := 0, timestampMs := 7000, changeset := 0
         user := [], visible := true }]
      (by decide)).1⟩

/-! ## Dense-node tag decoding (C2)

From `tagsContext` in `internal/decoder/primitive.go`:

```go
func (c *blockContext) newTagsContext(keyVals []int32) *tagsContext {
    tc := &tagsContext{strings: c.strings}
    if len(keyVals) != 0 {
        tc.keyVals = keyVals
    }
    return tc
}

func (tic *tagsContext) decodeTags() map[string]string {
    if tic.keyVals == nil {
        return map[string]string{}
    }
    tags := make(map[string]string)
    i := tic.i
    for tic.keyVals[i] > 0 {
        tags[tic.strings[tic.keyVals[i]]] = tic.strings[tic.keyVals[i+1]]
        i += 2
    }
    tic.i = i + 1
    return tags
}
```

Tag maps are represented by their insertion sequence (a pair list in scan
order); two decoders that produce the same insertion sequence produce the
same Go map. -/

/-- One `decodeTags()` call on a non-nil `keyVals`, scanning from cursor
`i`: consume `(key, value)` index pairs while `keyVals[i] > 0`, then skip
the terminator.  Reading past the end of `keyVals` or indexing the string
table out of range panics (`none`). -/
def decodeTags (strings : List GoStr) (keyVals : List Int) (i : Nat) :
    Option (List (GoStr × GoStr) × Nat) :=
  if hi : i < keyVals.length then
    if 0 < keyVals[i] then
      (strAt strings keyVals[i]).bind fun key =>
      (keyVals[i + 1]?).bind fun v =>
      (strAt strings v).bind fun val =>
      (decodeTags strings keyVals (i + 2)).map fun p =>
        ((key, val) :: p.1, p.2)
    else some ([], i + 1)
  else none
termination_by keyVals.length - i
decreasing_by omega

/-- The claim's version of the scan, differing only in its loop guard:
`while keys_vals[i] != 0` instead of the source's `> 0`. -/
def decodeTagsClaim (strings : List GoStr) (keyVals : List Int) (i : Nat) :
    Option (List (GoStr × GoStr) × Nat) :=
  if hi : i < keyVals.length then
    if keyVals[i] ≠ 0 then
      (strAt strings keyVals[i]).bind fun key =>
      (keyVals[i + 1]?).bind fun v =>
      (strAt strings v).bind fun val =>
      (decodeTagsClaim strings keyVals (i + 2)).map fun p =>
        ((key, val) :: p.1, p.2)
    else some ([], i + 1)
  else none
termination_by keyVals.length - i
decreasing_by omega

/-- The `n` successive `decodeTags()` calls issued by `decodeDenseNodes`
(one per node), threading the cursor. -/
def decodeTagsRun (strings : List GoStr) (keyVals : List Int) :
    Nat → Nat → Option (List (List (GoStr × GoStr)))
  | 0, _ => some []
  | c + 1, i =>
    (decodeTags strings keyVals i).bind fun p =>
      (decodeTagsRun strings keyVals c p.2).map (p.1 :: ·)

/-- As `decodeTagsRun`, for the claim's scan. -/
def decodeTagsRunClaim (strings : List GoStr) (keyVals : List Int) :
    Nat → Nat → Option (List (List (GoStr × GoStr)))
  | 0, _ => some []
  | c + 1, i =>
    (decodeTagsClaim strings keyVals i).bind fun p =>
      (decodeTagsRunClaim strings keyVals c p.2).map (p.1 :: ·)

/-- The per-node tag lists of a dense stream of `n` nodes: an empty
(missing) `keys_vals` gives every node the empty map
(`newTagsContext` leaves `keyVals` nil and `decodeTags` short-circuits);
otherwise the flat array is scanned node by node. -/
def decodeDenseTags (strings : List GoStr) (keyVals : List Int) (n : Nat) :
    Option (List (List (GoStr × GoStr))) :=
  if keyVals.isEmpty then some (List.replicate n [])
  else decodeTagsRun strings keyVals n 0

/-- As `decodeDenseTags`, for the claim's scan. -/
def decodeDenseTagsClaim (strings : List GoStr) (keyVals : List Int)
    (n : Nat) : Option (List (List (GoStr × GoStr))) :=
  if keyVals.isEmpty then some (List.replicate n [])
  else decodeTagsRunClaim strings keyVals n 0

theorem decodeTags_oob (strings : List GoStr) (keyVals : List Int) (i : Nat)
    (h : keyVals.length ≤ i) : decodeTags strings keyVals i = none := by
  rw [decodeTags, dif_neg (by omega)]

theorem decodeTags_stop (strings : List GoStr) (keyVals : List Int) (i : Nat)
    (hi : i < keyVals.length) (hk : ¬ 0 < keyVals[i]) :
    decodeTags strings keyVals i = some ([], i + 1) := by
  rw [decodeTags, dif_pos hi, if_neg hk]

theorem decodeTags_consume (strings : List GoStr) (keyVals : List Int)
    (i : Nat) (hi : i < keyVals.length) (hk : 0 < keyVals[i]) :
    decodeTags strings keyVals i =
      (strAt strings keyVals[i]).bind fun key =>
      (keyVals[i + 1]?).bind fun v =>
      (strAt strings v).bind fun val =>
      (decodeTags strings keyVals (i + 2)).map fun p =>
        ((key, val) :: p.1, p.2) := by
  rw [decodeTags, dif_pos hi, if_pos hk]

/-- The `keys_vals` encoding of one node's tag-index pairs: the pairs
flattened, then the single `0` sentinel (as `extractDenseNodes` emits
them). -/
def segEnc (pairs : List (Int × Int)) : List Int :=
  (pairs.flatMap fun p => [p.1, p.2]) ++ [0]

/-- Map a `(key_index, value_index)` pair through the string table. -/
def mapPair (strings : List GoStr) (p : Int × Int) : GoStr × GoStr :=
  (strings.getD p.1.toNat [], strings.getD p.2.toNat [])

/-- A well-formed tag-index pair: a positive in-range key index and a
non-negative in-range value index. -/
def PairValid (strings : List GoStr) (p : Int × Int) : Prop :=
  0 < p.1 ∧ p.1.toNat < strings.length ∧ 0 ≤ p.2 ∧ p.2.toNat < strings.length

instance (strings : List GoStr) : DecidablePred (PairValid strings) := fun p =>
  inferInstanceAs (Decidable (0 < p.1 ∧ p.1.toNat < strings.length ∧
    0 ≤ p.2 ∧ p.2.toNat < strings.length))

theorem strAt_of_valid_key (strings : List GoStr) (p : Int × Int)
    (h : PairValid strings p) :
    strAt strings p.1 = some (strings.getD p.1.toNat []) := by
  obtain ⟨h1, h2, _, _⟩ := h
  rw [strAt, if_pos (le_of_lt h1), List.getElem?_eq_getElem h2,
    List.getD_eq_getElem _ _ h2]

theorem strAt_of_valid_val (strings : List GoStr) (p : Int × Int)
    (h : PairValid strings p) :
    strAt strings p.2 = some (strings.getD p.2.toNat []) := by
  obtain ⟨_, _, h3, h4⟩ := h
  rw [strAt, if_pos h3, List.getElem?_eq_getElem h4,
    List.getD_eq_getElem _ _ h4]

theorem decodeTags_segment (strings : List GoStr) (pairs : List (Int × Int)) :
    ∀ (pre post : List Int), (∀ p ∈ pairs, PairValid strings p) →
      decodeTags strings (pre ++ (segEnc pairs ++ post)) pre.length =
        some (pairs.map (mapPair strings),
          pre.length + (segEnc pairs).length) := by
  induction pairs with
  | nil =>
    intro pre post _
    have hlen : pre.length < (pre ++ (segEnc [] ++ post)).length := by
      simp [segEnc]
    have hget : (pre ++ (segEnc [] ++ post))[pre.length] = 0 := by
      rw [List.getElem_append_right (le_refl pre.length)]
      simp [segEnc]
    rw [decodeTags_stop _ _ _ hlen (by rw [hget]; omega)]
    simp [segEnc]
  | cons p rest ih =>
    intro pre post hv
    have hvp : PairValid strings p := hv p (List.mem_cons_self p rest)
    have henc : segEnc (p :: rest) = p.1 :: p.2 :: segEnc rest := by
      simp [segEnc]
    have hassoc : pre ++ (segEnc (p :: rest) ++ post) =
        (pre ++ [p.1, p.2]) ++ (segEnc rest ++ post) := by
      rw [henc]; simp
    have hlen : pre.length < (pre ++ (segEnc (p :: rest) ++ post)).length := by
      simp [henc]
    have hget : (pre ++ (segEnc (p :: rest) ++ post))[pre.length] = p.1 := by
      rw [List.getElem_append_right (le_refl pre.length)]
      simp [henc]
    have hget2 : (pre ++ (segEnc (p :: rest) ++ post))[pre.length + 1]? =
        some p.2 := by
      rw [List.getElem?_append_right (by omega)]
      simp [henc]
    rw [decodeTags_consume _ _ _ hlen (by rw [hget]; exact hvp.1), hget]
    rw [strAt_of_valid_key strings p hvp, Option.some_bind, hget2,
      Option.some_bind, strAt_of_valid_val strings p hvp, Option.some_bind]
    have hrec := ih (pre ++ [p.1, p.2]) post
      (fun q hq => hv q (List.mem_cons_of_mem p hq))
    rw [show (pre ++ [p.1, p.2]).length = pre.length + 2 by simp] at hrec
    rw [show pre ++ (segEnc (p :: rest) ++ post) =
        (pre ++ [p.1, p.2]) ++ (segEnc rest ++ post) from hassoc, hrec]
    simp [mapPair, henc]
    omega

theorem decodeTagsRun_segments (strings : List GoStr)
    (segs : List (List (Int × Int))) :
    ∀ (pre post : List Int),
      (∀ seg ∈ segs, ∀ p ∈ seg, PairValid strings p) →
      decodeTagsRun strings (pre ++ ((segs.map segEnc).flatten ++ post))
          segs.length pre.length =
        some (segs.map (List.map (mapPair strings))) := by
  induction segs with
  | nil => intro pre post _; rfl
  | cons seg rest ih =>
    intro pre post hv
    have hmain : pre ++ ((List.map segEnc (seg :: rest)).flatten ++ post) =
        pre ++ (segEnc seg ++ ((rest.map segEnc).flatten ++ post)) := by
      simp
    rw [hmain]
    show (decodeTags strings (pre ++ (segEnc seg ++
        ((rest.map segEnc).flatten ++ post))) pre.length).bind _ = _
    rw [decodeTags_segment strings seg pre ((rest.map segEnc).flatten ++ post)
      (fun p hp => hv seg (List.mem_cons_self seg rest) p hp),
      Option.some_bind]
    have hrec := ih (pre ++ segEnc seg) post
      (fun s hs p hp => hv s (List.mem_cons_of_mem seg hs) p hp)
    rw [List.length_append, List.append_assoc] at hrec
    rw [hrec]
    rfl

/-- C2 counterexample — the claim's tag grammar consumes pairs while
`keys_vals[i] != 0`; the decoder's loop guard is `keys_vals[i] > 0`.  On
a one-node stream with `keys_vals = [-1]`, the decoder treats `-1` as a
terminator and decodes one tag-less node, while the claim's scan consumes
`(-1, …)` as a pair and faults on the negative string index: the decoder
does not implement the claimed grammar. -/
theorem dense_tags_guard_counterexample :
    decodeDenseTags [[], ['k'], ['v']] [-1] 1 = some [[]] ∧
      decodeDenseTagsClaim [[], ['k'], ['v']] [-1] 1 = none := by
  constructor
  · show decodeTagsRun _ _ 1 0 = _
    rw [show (1 : Nat) = 0 + 1 from rfl]
    show (decodeTags _ _ 0).bind _ = _
    rw [decodeTags_stop _ _ 0 (by decide) (by decide)]
    rfl
  · show decodeTagsRunClaim _ _ 1 0 = _
    rw [show (1 : Nat) = 0 + 1 from rfl]
    show (decodeTagsClaim _ _ 0).bind _ = _
    rw [decodeTagsClaim, dif_pos (by decide), if_pos (by decide)]
    rfl

/-- C2 amended — the tag decoder scans the flat `keys_vals` array in node
order, consuming `(key_index, value_index)` pairs while
`keys_vals[i] > 0` (not `!= 0`: any non-positive entry acts as the
terminator), maps each pair through the block's string table, and skips
the single sentinel before the next node; for every stream that is a
concatenation of per-node pair segments with positive in-range key
indices and in-range value indices, the decode yields exactly those
per-node tag assignments; and a missing (empty) `keys_vals` yields the
empty tag map for every node in the stream. -/
theorem dense_tags_grammar (strings : List GoStr)
    (segs : List (List (Int × Int))) (n : Nat)
    (hv : ∀ seg ∈ segs, ∀ p ∈ seg, PairValid strings p) :
    decodeDenseTags strings ((segs.map segEnc).flatten) segs.length =
        some (segs.map (List.map (mapPair strings))) ∧
      decodeDenseTags strings [] n = some (List.replicate n []) := by
  constructor
  · cases segs with
    | nil => rfl
    | cons seg rest =>
      have hne : ((seg :: rest).map segEnc).flatten ≠ [] := by
        simp only [List.map_cons, List.flatten_cons, ne_eq,
          List.append_eq_nil]
        intro hcon
        have : segEnc seg ≠ [] := by simp [segEnc]
        exact this hcon.1
      rw [decodeDenseTags,
        if_neg (by simpa [List.isEmpty_iff] using hne)]
      have hrun := decodeTagsRun_segments strings (seg :: rest) [] [] hv
      simpa using hrun
  · rfl

/-- Witness for `dense_tags_grammar`: a two-node stream (`keys_vals =
[1, 2, 0, 0]`, one tagged node then one tag-less node) and a three-node
stream with missing `keys_vals`. -/
theorem dense_tags_grammar_witness :
    (∀ seg ∈ ([[((1 : Int), 2)], []] : List (List (Int × Int))),
        ∀ p ∈ seg, PairValid [[], ['k'], ['v']] p) ∧
      (decodeDenseTags [[], ['k'], ['v']]
            ((([[((1 : Int), 2)], []] : List (List (Int × Int))).map
              segEnc).flatten)
            ([[((1 : Int), 2)], []] : List (List (Int × Int))).length =
          some (([[((1 : Int), 2)], []] : List (List (Int × Int))).map
            (List.map (mapPair [[], ['k'], ['v']]))) ∧
        decodeDenseTags [[], ['k'], ['v']] [] 3 =
          some (List.replicate 3 [])) :=
  ⟨by decide,
    dense_tags_grammar [[], ['k'], ['v']] [[((1 : Int), 2)], []] 3
      (by decide)⟩

/-! ## String table (C7)

From `internal/encoder/table.go`:

```go
func (s *Strings) CalcTable() *Table {
    strings := make([]string, 0, len(s.tbl)+1)
    // Index 0 is used by pb.DenseNodes to encode tags.  We insert an
    // empty string that will be at index 0 after the array has been
    // sorted.
    strings = append(strings, notUsed)
    for k := range s.tbl {
        strings = append(strings, k)
    }
    sort.Strings(strings)
    tbl := make(map[string]int32, len(strings))
    for i, k := range strings {
        tbl[k] = int32(i)
    }
    return &Table{ ... }
}
```

The `Strings` value is the set of `Add`ed strings (a Go map used as a
set), modelled as the `dedup` of the list of `Add` calls.  Since equal
elements of a sorted list are indistinguishable, the sorted array is
independent of the map's iteration order, and `insertionSort` computes
exactly `sort.Strings`'s result.  The `tbl` index map assigns each string
the index of its *last* occurrence in the sorted array (later duplicates
overwrite earlier ones). -/

/-- `notUsed`, the reserved string prepended before sorting. -/
def notUsed : GoStr := []

/-- `Strings.CalcTable`'s emitted array, from the list of `Add`ed
strings. -/
def CalcTable (added : List GoStr) : List GoStr :=
  List.insertionSort (· ≤ ·) (notUsed :: added.dedup)

/-- The index of the last occurrence of `s` in `l` (what the `tbl` map
built by ascending-index insertion holds). -/
def lastIdx : List GoStr → GoStr → Option Nat
  | [], _ => none
  | a :: l, s =>
    match lastIdx l s with
    | some j => some (j + 1)
    | none => if a = s then some 0 else none

/-- `Table.IndexOf` (panics when the string is absent: `none`). -/
def IndexOf (table : List GoStr) (s : GoStr) : Option Nat :=
  lastIdx table s

/-- The claim's table: the lexicographically sorted *set* of the
referenced strings together with the reserved empty string (each string
appearing once). -/
def specStringTable (added : List GoStr) : List GoStr :=
  List.insertionSort (· ≤ ·) (notUsed :: added).dedup

theorem lastIdx_lt (s : GoStr) :
    ∀ (l : List GoStr) (j : Nat), lastIdx l s = some j → j < l.length := by
  intro l
  induction l with
  | nil => intro j h; cases h
  | cons a l ih =>
    intro j h
    simp only [lastIdx] at h
    rcases hl : lastIdx l s with _ | j' <;> rw [hl] at h
    · by_cases ha : a = s
      · rw [if_pos ha] at h
        have : j = 0 := (Option.some.injEq _ _ ▸ h).symm
        simp [this]
      · rw [if_neg ha] at h
        cases h
    · have hij : j' + 1 = j := Option.some.injEq _ _ ▸ h
      have := ih j' hl
      simp only [List.length_cons]
      omega

theorem lastIdx_isSome_of_mem (s : GoStr) :
    ∀ (l : List GoStr), s ∈ l → ∃ j, lastIdx l s = some j := by
  intro l
  induction l with
  | nil => intro h; cases h
  | cons a l ih =>
    intro h
    simp only [lastIdx]
    rcases hl : lastIdx l s with _ | j'
    · rcases List.mem_cons.mp h with rfl | hmem
      · exact ⟨0, by rw [if_pos rfl]⟩
      · obtain ⟨j, hj⟩ := ih hmem
        rw [hj] at hl
        cases hl
    · exact ⟨j' + 1, rfl⟩

theorem lastIdx_tail_pos (s a : GoStr) (l : List GoStr) (h : s ∈ l) :
    ∃ j, lastIdx (a :: l) s = some j ∧ 1 ≤ j := by
  obtain ⟨j, hj⟩ := lastIdx_isSome_of_mem s l h
  exact ⟨j + 1, by simp only [lastIdx, hj], by omega⟩

theorem calcTable_perm (added : List GoStr) :
    (CalcTable added).Perm (notUsed :: added.dedup) :=
  List.perm_insertionSort (· ≤ ·) (notUsed :: added.dedup)

theorem calcTable_sorted (added : List GoStr) :
    List.Sorted (· ≤ ·) (CalcTable added) :=
  List.sorted_insertionSort (· ≤ ·) (notUsed :: added.dedup)

theorem calcTable_cons (added : List GoStr) :
    ∃ t, CalcTable added = notUsed :: t := by
  have hperm := calcTable_perm added
  have hsorted := calcTable_sorted added
  have hmem : notUsed ∈ CalcTable added :=
    hperm.mem_iff.mpr (List.mem_cons_self _ _)
  rcases hT : CalcTable added with _ | ⟨h, t⟩
  · rw [hT] at hmem
    cases hmem
  · refine ⟨t, ?_⟩
    rw [hT] at hmem hsorted
    have h1 : notUsed ≤ h := List.nil_le
    have h2 : h ≤ notUsed := by
      rcases List.mem_cons.mp hmem with heq | hmem'
      · exact le_of_eq heq.symm
      · exact (List.sorted_cons.mp hsorted).1 notUsed hmem'
    rw [le_antisymm h2 h1]

/-- C7 counterexample — the claim describes the emitted table as the
lexicographically sorted *set* of referenced strings with the reserved
empty string at index 0.  When the empty string is itself referenced
(every encoded entity references `info.User`, which defaults to `""`),
`CalcTable` prepends a second `""`: the emitted array is `["", ""]`, not
the one-element set `[""]`. -/
theorem string_table_duplicate_empty_counterexample :
    CalcTable [[]] = [[], []] ∧ specStringTable [[]] = [[]] ∧
      CalcTable [[]] ≠ specStringTable [[]] := by
  refine ⟨by decide, by decide, by decide⟩

/-- C7 amended — the emitted array is the reserved empty string prepended
to the distinct referenced strings and then lexicographically sorted (so
`""` occupies index 0 and occurs a second time at index 1 whenever `""`
is itself referenced); and every string reference the encoder emits — the
`IndexOf` of any `Add`ed string, covering tag keys and values, info
`user_sid`, and relation `roles_sid` — is an index in `[1, |S|−1]`; index
0 is never produced. -/
theorem string_table_refs (added : List GoStr) (s : GoStr) (h : s ∈ added) :
    (CalcTable added).head? = some notUsed ∧
      ∃ j, IndexOf (CalcTable added) s = some j ∧ 1 ≤ j ∧
        j ≤ (CalcTable added).length - 1 := by
  obtain ⟨t, ht⟩ := calcTable_cons added
  have hperm := calcTable_perm added
  have hmemT : s ∈ CalcTable added :=
    hperm.mem_iff.mpr (List.mem_cons_of_mem _ (List.mem_dedup.mpr h))
  have hperm_t : t.Perm added.dedup := by
    rw [ht] at hperm
    exact hperm.cons_inv
  have hmem_t : s ∈ t :=
    hperm_t.mem_iff.mpr (List.mem_dedup.mpr h)
  obtain ⟨j, hj, hj1⟩ := lastIdx_tail_pos s notUsed t hmem_t
  refine ⟨by rw [ht]; rfl, j, ?_, hj1, ?_⟩
  · rw [ht]
    exact hj
  · have := lastIdx_lt s (CalcTable added) j (by rw [ht]; exact hj)
    omega

/-- Witness for `string_table_refs` at a table built from two referenced
strings, one of them empty. -/
theorem string_table_refs_witness :
    (['a'] : GoStr) ∈ [['a'], ([] : GoStr)] ∧
      ((CalcTable [['a'], []]).head? = some notUsed ∧
        ∃ j, IndexOf (CalcTable [['a'], []]) ['a'] = some j ∧ 1 ≤ j ∧
          j ≤ (CalcTable [['a'], []]).length - 1) :=
  ⟨by decide, string_table_refs [['a'], []] ['a'] (by decide)⟩

/-! ## Block extraction and its determinism (C10)

From `internal/encoder/primitive.go` (`newBlockContext`,
`extractPrimitiveBlock`, `extractDenseNodes`, `extractWays`,
`extractRelations`, `calcTagIDs`, `toInfoPb`, `fromTimestamp`).

Go `map` iteration order is unspecified; each entity's tag map is
modelled as an association list whose order stands for one iteration
order, and the `Strings` set as the list of `Add` calls (its `dedup`).
The claim is that the emitted `PrimitiveBlock` does not depend on those
orders.

Entities with a nil `*Info` make the encoder dereference nil
(`n.GetInfo().User`, `toInfoPb`'s `info.Version`) and panic, so the
embedded entities carry the `Info` value directly. -/

/-- Encoder-side `model.Info`. -/
structure InfoE where
  version : Int
  uid : Int
  timestampMs : Int
  changeset : Int
  user : GoStr
  visible : Bool
  deriving DecidableEq

/-- Relation member kinds (`model.EntityType` / `pb.Relation_MemberType`,
`NODE↔0, WAY↔1, RELATION↔2`). -/
inductive EntityType
  | node
  | way
  | relation
  deriving DecidableEq

/-- `model.Node`; `tags` carries a map iteration order. -/
structure NodeE where
  id : Int
  tags : List (GoStr × GoStr)
  info : InfoE
  lat : ℚ
  lon : ℚ
  deriving DecidableEq

/-- `model.Way`. -/
structure WayE where
  id : Int
  tags : List (GoStr × GoStr)
  info : InfoE
  nodeIDs : List Int
  deriving DecidableEq

/-- `model.Member`. -/
structure MemberE where
  id : Int
  type : EntityType
  role : GoStr
  deriving DecidableEq

/-- `model.Relation`. -/
structure RelE where
  id : Int
  tags : List (GoStr × GoStr)
  info : InfoE
  members : List MemberE
  deriving DecidableEq

/-- `model.Entity`, the sealed three-variant sum. -/
inductive Ent
  | node (n : NodeE)
  | way (w : WayE)
  | rel (r : RelE)
  deriving DecidableEq

/-- Modelled from the spec: `model.ToCoordinate` (the active `model` file
defining it is not under `src/`).  The spec's inverse fixed-point rule is
`raw = degrees × 1e7 / granularity - offset`. -/
def ToCoordinate (offset granularity : Int) (d : ℚ) : Int :=
  ⌊d * 10000000 / (granularity : ℚ)⌋ - offset

/-- `fromTimestamp`: `timestamp.UnixMilli() / int64(granularity)` (Go
division truncates toward zero). -/
def fromTimestamp (granularity timestampMs : Int) : Int :=
  timestampMs.tdiv granularity

/-- `calcDeltas` at Go `int32` (versions, uids, user-sids columns). -/
def calcDeltasAux32 (prev : Int) : List Int → List Int
  | [] => []
  | v :: rest => wrap32 (v - prev) :: calcDeltasAux32 v rest

def calcDeltas32 (values : List Int) : List Int :=
  calcDeltasAux32 0 values

/-- Go map read `tags[k]`: the value of the (unique) matching key, or the
zero string when absent. -/
def lookupTag : List (GoStr × GoStr) → GoStr → Option GoStr
  | [], _ => none
  | (k, v) :: rest, key => if k = key then some v else lookupTag rest key

/-- The loop body of `calcTagIDs` over the sorted key list: for each key,
`table.IndexOf(k)` and `table.IndexOf(tags[k])`. -/
def tagIDsLoop (tags : List (GoStr × GoStr)) (table : List GoStr) :
    List GoStr → Option (List Nat × List Nat)
  | [] => some ([], [])
  | k :: ks =>
    (IndexOf table k).bind fun ki =>
    (IndexOf table ((lookupTag tags k).getD [])).bind fun vi =>
    (tagIDsLoop tags table ks).map fun p => (ki :: p.1, vi :: p.2)

/-- `calcTagIDs`: collect the tag map's keys, sort them
(`sort.Strings`), then emit key/value table indices in that order. -/
def calcTagIDs (tags : List (GoStr × GoStr)) (table : List GoStr) :
    Option (List Nat × List Nat) :=
  tagIDsLoop tags table (List.insertionSort (· ≤ ·) (tags.map (·.1)))

/-- `pb.Info` as emitted by `toInfoPb`. -/
structure InfoOut where
  version : Int
  timestamp : Int
  changeset : Int
  uid : Int
  userSid : Nat
  visible : Bool
  deriving DecidableEq

/-- `toInfoPb`: the timestamp field is
`int32(info.Timestamp.UTC().UnixMilli() / DateGranularityMs)`. -/
def toInfoPb (info : InfoE) (table : List GoStr) : Option InfoOut :=
  (IndexOf table info.user).map fun sid =>
    { version := info.version
      timestamp := wrap32 (fromTimestamp 1000 info.timestampMs)
      changeset := info.changeset
      uid := info.uid
      userSid := sid
      visible := info.visible }

/-- The strings `newBlockContext` adds for one entity:
`extractTagsAndInfo` interleaves each tag's key and value in map
iteration order and then adds `info.User`; relations additionally add
their member roles, and nodes add `info.User` a second time. -/
def tagAdds (tags : List (GoStr × GoStr)) : List GoStr :=
  tags.flatMap fun p => [p.1, p.2]

def entityAdds : Ent → List GoStr
  | .node n => tagAdds n.tags ++ [n.info.user] ++ [n.info.user]
  | .way w => tagAdds w.tags ++ [w.info.user]
  | .rel r => tagAdds r.tags ++ [r.info.user] ++ r.members.map (·.role)

def collectStrings (es : List Ent) : List GoStr :=
  es.flatMap entityAdds

/-- One row of the parallel dense-node arrays, before delta encoding. -/
structure DenseRow where
  id : Int
  lat : Int
  lon : Int
  version : Int
  uid : Int
  ts : Int
  cs : Int
  usid : Nat
  kv : List Int
  deriving DecidableEq

/-- The loop body of `extractDenseNodes` for one `*model.Node`. -/
def nodeRow (table : List GoStr) (n : NodeE) : Option DenseRow :=
  (IndexOf table n.info.user).bind fun usid =>
  (calcTagIDs n.tags table).map fun p =>
    { id := n.id
      lat := ToCoordinate 0 100 n.lat
      lon := ToCoordinate 0 100 n.lon
      version := n.info.version
      uid := n.info.uid
      ts := fromTimestamp 1000 n.info.timestampMs
      cs := n.info.changeset
      usid := usid
      kv := ((p.1.zip p.2).flatMap fun q => [(q.1 : Int), (q.2 : Int)]) ++ [0] }

/-- `extractDenseNodes`'s iteration: every entity that is a node
contributes one row (other entity kinds are skipped by the type
switch). -/
def denseRowsAll (table : List GoStr) : List Ent → Option (List DenseRow)
  | [] => some []
  | .node n :: rest =>
    (nodeRow table n).bind fun r =>
      (denseRowsAll table rest).map (r :: ·)
  | .way _ :: rest => denseRowsAll table rest
  | .rel _ :: rest => denseRowsAll table rest

/-- `pb.DenseNodes` (with its `pb.DenseInfo`) as `extractDenseNodes`
emits it: every column delta-encoded at its Go width, `keys_vals`
flattened. -/
structure DenseOut where
  id : List Int
  lat : List Int
  lon : List Int
  version : List Int
  uid : List Int
  timestamp : List Int
  changeset : List Int
  userSid : List Int
  keysVals : List Int
  deriving DecidableEq

def assembleDense (rows : List DenseRow) : DenseOut :=
  { id := calcDeltas (rows.map (·.id))
    lat := calcDeltas (rows.map (·.lat))
    lon := calcDeltas (rows.map (·.lon))
    version := calcDeltas32 (rows.map (·.version))
    uid := calcDeltas32 (rows.map (·.uid))
    timestamp := calcDeltas (rows.map (·.ts))
    changeset := calcDeltas (rows.map (·.cs))
    userSid := calcDeltas32 (rows.map fun r => (r.usid : Int))
    keysVals := (rows.map (·.kv)).flatten }

def extractDenseNodes (table : List GoStr) (es : List Ent) :
    Option DenseOut :=
  (denseRowsAll table es).map assembleDense

/-- `pb.Way` as `extractWays` emits it. -/
structure WayOut where
  id : Int
  keys : List Nat
  vals : List Nat
  info : InfoOut
  refs : List Int
  deriving DecidableEq

def wayOut (table : List GoStr) (w : WayE) : Option WayOut :=
  (calcTagIDs w.tags table).bind fun p =>
  (toInfoPb w.info table).map fun ipb =>
    { id := w.id, keys := p.1, vals := p.2, info := ipb
      refs := calcDeltas w.nodeIDs }

def extractWays (table : List GoStr) : List Ent → Option (List WayOut)
  | [] => some []
  | .way w :: rest =>
    (wayOut table w).bind fun o =>
      (extractWays table rest).map (o :: ·)
  | .node _ :: rest => extractWays table rest
  | .rel _ :: rest => extractWays table rest

/-- `pb.Relation` as `extractRelations` emits it. -/
structure RelOut where
  id : Int
  keys : List Nat
  vals : List Nat
  info : InfoOut
  rolesSid : List Nat
  memids : List Int
  types : List EntityType
  deriving DecidableEq

def rolesIdx (table : List GoStr) : List MemberE → Option (List Nat)
  | [] => some []
  | m :: rest =>
    (IndexOf table m.role).bind fun i =>
      (rolesIdx table rest).map (i :: ·)

def relOut (table : List GoStr) (r : RelE) : Option RelOut :=
  (calcTagIDs r.tags table).bind fun p =>
  (rolesIdx table r.members).bind fun roles =>
  (toInfoPb r.info table).map fun ipb =>
    { id := r.id, keys := p.1, vals := p.2, info := ipb
      rolesSid := roles
      memids := calcDeltas (r.members.map (·.id))
      types := r.members.map (·.type) }

def extractRelations (table : List GoStr) : List Ent → Option (List RelOut)
  | [] => some []
  | .rel r :: rest =>
    (relOut table r).bind fun o =>
      (extractRelations table rest).map (o :: ·)
  | .node _ :: rest => extractRelations table rest
  | .way _ :: rest => extractRelations table rest

/-- The single `pb.PrimitiveGroup` of the block. -/
inductive GroupOut
  | dense (d : DenseOut)
  | ways (ws : List WayOut)
  | relations (rs : List RelOut)
  deriving DecidableEq

/-- `pb.PrimitiveBlock` as `extractPrimitiveBlock` emits it (the
granularity/offset/date-granularity fields are the fixed constants
100/0/0/1000 and are omitted). -/
structure BlockOut where
  stringtable : List GoStr
  group : GroupOut
  deriving DecidableEq

/-- `blockContext.extractPrimitiveBlock` preceded by `newBlockContext`:
build the string table from every entity's tags, users and roles, then
switch on the first entity's concrete type (an empty batch panics on
`bc.entities[0]`). -/
def extractPrimitiveBlock (es : List Ent) : Option BlockOut :=
  match es with
  | [] => none
  | e :: _ =>
    let table := CalcTable (collectStrings es)
    match e with
    | .node _ =>
      (extractDenseNodes table es).map fun d =>
        { stringtable := table, group := .dense d }
    | .way _ =>
      (extractWays table es).map fun ws =>
        { stringtable := table, group := .ways ws }
    | .rel _ =>
      (extractRelations table es).map fun rs =>
        { stringtable := table, group := .relations rs }

/-- Two tag maps are the same Go map under different iteration orders:
one is a permutation of the other, and keys are unique (as in any Go
map). -/
def TagsEquiv (t1 t2 : List (GoStr × GoStr)) : Prop :=
  t1.Perm t2 ∧ (t1.map (·.1)).Nodup

/-- Two entities are the same value up to tag-map iteration order. -/
def EntEquiv : Ent → Ent → Prop
  | .node a, .node b =>
    a.id = b.id ∧ a.lat = b.lat ∧ a.lon = b.lon ∧ a.info = b.info ∧
      TagsEquiv a.tags b.tags
  | .way a, .way b =>
    a.id = b.id ∧ a.nodeIDs = b.nodeIDs ∧ a.info = b.info ∧
      TagsEquiv a.tags b.tags
  | .rel a, .rel b =>
    a.id = b.id ∧ a.members = b.members ∧ a.info = b.info ∧
      TagsEquiv a.tags b.tags
  | _, _ => False

theorem lookupTag_mem (k : GoStr) (v : GoStr) :
    ∀ t : List (GoStr × GoStr), lookupTag t k = some v → (k, v) ∈ t := by
  intro t
  induction t with
  | nil => intro h; cases h
  | cons p rest ih =>
    intro h
    rcases p with ⟨k', v'⟩
    simp only [lookupTag] at h
    by_cases hk : k' = k
    · rw [if_pos hk] at h
      cases h
      exact hk ▸ List.mem_cons_self _ _
    · rw [if_neg hk] at h
      exact List.mem_cons_of_mem _ (ih h)

theorem lookupTag_eq_some_of_mem (k v : GoStr) :
    ∀ t : List (GoStr × GoStr), (t.map (·.1)).Nodup → (k, v) ∈ t →
      lookupTag t k = some v := by
  intro t
  induction t with
  | nil => intro _ h; cases h
  | cons p rest ih =>
    intro hnd hm
    rcases p with ⟨k', v'⟩
    rw [List.map_cons] at hnd
    rcases List.nodup_cons.mp hnd with ⟨hk', hnd'⟩
    simp only [lookupTag]
    rcases List.mem_cons.mp hm with heq | hmem
    · cases heq
      rw [if_pos rfl]
    · have hkne : k' ≠ k := by
        intro hcon
        exact hk' (hcon ▸ List.mem_map_of_mem (·.1) hmem)
      rw [if_neg hkne]
      exact ih hnd' hmem

theorem lookupTag_eq_none_iff (k : GoStr) :
    ∀ t : List (GoStr × GoStr), lookupTag t k = none ↔ k ∉ t.map (·.1) := by
  intro t
  induction t with
  | nil => simp [lookupTag]
  | cons p rest ih =>
    rcases p with ⟨k', v'⟩
    simp only [lookupTag, List.map_cons, List.mem_cons]
    by_cases hk : k' = k
    · rw [if_pos hk]
      simp [hk.symm]
    · rw [if_neg hk]
      rw [ih]
      constructor
      · intro hnot hcon
        rcases hcon with hc | hc
        · exact hk hc.symm
        · exact hnot hc
      · intro hnot hc
        exact hnot (Or.inr hc)

theorem lookupTag_perm (t1 t2 : List (GoStr × GoStr)) (hp : t1.Perm t2)
    (hnd : (t1.map (·.1)).Nodup) (k : GoStr) :
    lookupTag t1 k = lookupTag t2 k := by
  have hnd2 : (t2.map (·.1)).Nodup := ((hp.map (·.1)).nodup_iff).mp hnd
  rcases hl : lookupTag t1 k with _ | v
  · rw [eq_comm, lookupTag_eq_none_iff]
    intro hcon
    have := (lookupTag_eq_none_iff k t1).mp hl
    exact this ((hp.map (·.1)).mem_iff.mpr hcon)
  · rw [eq_comm]
    exact lookupTag_eq_some_of_mem k v t2 hnd2
      (hp.mem_iff.mp (lookupTag_mem k v t1 hl))

theorem sortedKeys_perm (t1 t2 : List (GoStr × GoStr)) (hp : t1.Perm t2) :
    List.insertionSort (· ≤ ·) (t1.map (·.1)) =
      List.insertionSort (· ≤ ·) (t2.map (·.1)) := by
  refine List.eq_of_perm_of_sorted ?_
    (List.sorted_insertionSort _ _) (List.sorted_insertionSort _ _)
  exact (List.perm_insertionSort _ _).trans
    ((hp.map _).trans (List.perm_insertionSort _ _).symm)

theorem tagIDsLoop_congr (t1 t2 : List (GoStr × GoStr))
    (table : List GoStr)
    (hlk : ∀ k, lookupTag t1 k = lookupTag t2 k) :
    ∀ ks : List GoStr, tagIDsLoop t1 table ks = tagIDsLoop t2 table ks := by
  intro ks
  induction ks with
  | nil => rfl
  | cons k ks ih =>
    simp only [tagIDsLoop, hlk k, ih]

theorem calcTagIDs_equiv (t1 t2 : List (GoStr × GoStr))
    (table : List GoStr) (h : TagsEquiv t1 t2) :
    calcTagIDs t1 table = calcTagIDs t2 table := by
  unfold calcTagIDs
  rw [sortedKeys_perm t1 t2 h.1]
  exact tagIDsLoop_congr t1 t2 table
    (lookupTag_perm t1 t2 h.1 h.2) _

theorem entityAdds_perm (e1 e2 : Ent) (h : EntEquiv e1 e2) :
    (entityAdds e1).Perm (entityAdds e2) := by
  cases e1 with
  | node a =>
    cases e2 with
    | node b =>
      obtain ⟨_, _, _, hinfo, htags⟩ := h
      simp only [entityAdds, tagAdds, hinfo]
      exact ((htags.1.flatMap_right _).append_right _).append_right _
    | way b => exact h.elim
    | rel b => exact h.elim
  | way a =>
    cases e2 with
    | way b =>
      obtain ⟨_, _, hinfo, htags⟩ := h
      simp only [entityAdds, tagAdds, hinfo]
      exact (htags.1.flatMap_right _).append_right _
    | node b => exact h.elim
    | rel b => exact h.elim
  | rel a =>
    cases e2 with
    | rel b =>
      obtain ⟨_, hmem, hinfo, htags⟩ := h
      simp only [entityAdds, tagAdds, hinfo, hmem]
      exact ((htags.1.flatMap_right _).append_right _).append_right _
    | node b => exact h.elim
    | way b => exact h.elim

theorem collectStrings_perm (b1 b2 : List Ent)
    (h : List.Forall₂ EntEquiv b1 b2) :
    (collectStrings b1).Perm (collectStrings b2) := by
  induction h with
  | nil => exact List.Perm.refl _
  | cons he _ ih =>
    exact (entityAdds_perm _ _ he).append ih

theorem calcTable_eq_of_perm (l1 l2 : List GoStr) (h : l1.Perm l2) :
    CalcTable l1 = CalcTable l2 := by
  refine List.eq_of_perm_of_sorted ?_ (calcTable_sorted l1)
    (calcTable_sorted l2)
  exact (calcTable_perm l1).trans
    (((h.dedup).cons notUsed).trans (calcTable_perm l2).symm)

theorem nodeRow_equiv (table : List GoStr) (a b : NodeE)
    (hid : a.id = b.id) (hlat : a.lat = b.lat) (hlon : a.lon = b.lon)
    (hinfo : a.info = b.info) (htags : TagsEquiv a.tags b.tags) :
    nodeRow table a = nodeRow table b := by
  unfold nodeRow
  rw [hid, hlat, hlon, hinfo, calcTagIDs_equiv a.tags b.tags table htags]

theorem wayOut_equiv (table : List GoStr) (a b : WayE)
    (hid : a.id = b.id) (hrefs : a.nodeIDs = b.nodeIDs)
    (hinfo : a.info = b.info) (htags : TagsEquiv a.tags b.tags) :
    wayOut table a = wayOut table b := by
  unfold wayOut
  rw [hid, hrefs, hinfo, calcTagIDs_equiv a.tags b.tags table htags]

theorem relOut_equiv (table : List GoStr) (a b : RelE)
    (hid : a.id = b.id) (hmem : a.members = b.members)
    (hinfo : a.info = b.info) (htags : TagsEquiv a.tags b.tags) :
    relOut table a = relOut table b := by
  unfold relOut
  rw [hid, hmem, hinfo, calcTagIDs_equiv a.tags b.tags table htags]

theorem denseRowsAll_equiv (table : List GoStr) (b1 b2 : List Ent)
    (h : List.Forall₂ EntEquiv b1 b2) :
    denseRowsAll table b1 = denseRowsAll table b2 := by
  induction h with
  | nil => rfl
  | cons he hrest ih =>
    rename_i e1 e2 r1 r2
    cases e1 with
    | node a =>
      cases e2 with
      | node b =>
        obtain ⟨hid, hlat, hlon, hinfo, htags⟩ := he
        simp only [denseRowsAll,
          nodeRow_equiv table a b hid hlat hlon hinfo htags, ih]
      | way b => exact he.elim
      | rel b => exact he.elim
    | way a =>
      cases e2 with
      | way b => simpa only [denseRowsAll] using ih
      | node b => exact he.elim
      | rel b => exact he.elim
    | rel a =>
      cases e2 with
      | rel b => simpa only [denseRowsAll] using ih
      | node b => exact he.elim
      | way b => exact he.elim

theorem extractWays_equiv (table : List GoStr) (b1 b2 : List Ent)
    (h : List.Forall₂ EntEquiv b1 b2) :
    extractWays table b1 = extractWays table b2 := by
  induction h with
  | nil => rfl
  | cons he hrest ih =>
    rename_i e1 e2 r1 r2
    cases e1 with
    | way a =>
      cases e2 with
      | way b =>
        obtain ⟨hid, hrefs, hinfo, htags⟩ := he
        simp only [extractWays,
          wayOut_equiv table a b hid hrefs hinfo htags, ih]
      | node b => exact he.elim
      | rel b => exact he.elim
    | node a =>
      cases e2 with
      | node b => simpa only [extractWays] using ih
      | way b => exact he.elim
      | rel b => exact he.elim
    | rel a =>
      cases e2 with
      | rel b => simpa only [extractWays] using ih
      | node b => exact he.elim
      | way b => exact he.elim

theorem extractRelations_equiv (table : List GoStr) (b1 b2 : List Ent)
    (h : List.Forall₂ EntEquiv b1 b2) :
    extractRelations table b1 = extractRelations table b2 := by
  induction h with
  | nil => rfl
  | cons he hrest ih =>
    rename_i e1 e2 r1 r2
    cases e1 with
    | rel a =>
      cases e2 with
      | rel b =>
        obtain ⟨hid, hmem, hinfo, htags⟩ := he
        simp only [extractRelations,
          relOut_equiv table a b hid hmem hinfo htags, ih]
      | node b => exact he.elim
      | way b => exact he.elim
    | node a =>
      cases e2 with
      | node b => simpa only [extractRelations] using ih
      | way b => exact he.elim
      | rel b => exact he.elim
    | way a =>
      cases e2 with
      | way b => simpa only [extractRelations] using ih
      | node b => exact he.elim
      | rel b => exact he.elim

/-- C10 — Deterministic block encoding: for batches that are the same
entities up to the (unspecified) Go map iteration order of each entity's
tag map, `extractPrimitiveBlock` emits the identical `PrimitiveBlock`:
the string table is the sorted deduplicated referenced-string list and
each entity's tag key/value index pairs are emitted in sorted key order,
so no Go map iteration order leaks into the output. -/
theorem extractPrimitiveBlock_deterministic (b1 b2 : List Ent)
    (h : List.Forall₂ EntEquiv b1 b2) :
    extractPrimitiveBlock b1 = extractPrimitiveBlock b2 := by
  have htable : CalcTable (collectStrings b1) =
      CalcTable (collectStrings b2) :=
    calcTable_eq_of_perm _ _ (collectStrings_perm b1 b2 h)
  cases h with
  | nil => rfl
  | cons he hrest =>
    rename_i e1 e2 r1 r2
    have hfull : List.Forall₂ EntEquiv (e1 :: r1) (e2 :: r2) :=
      List.Forall₂.cons he hrest
    cases e1 with
    | node a =>
      cases e2 with
      | node b =>
        simp only [extractPrimitiveBlock, extractDenseNodes]
        rw [htable, denseRowsAll_equiv _ _ _ hfull]
      | way b => exact he.elim
      | rel b => exact he.elim
    | way a =>
      cases e2 with
      | way b =>
        simp only [extractPrimitiveBlock]
        rw [htable, extractWays_equiv _ _ _ hfull]
      | node b => exact he.elim
      | rel b => exact he.elim
    | rel a =>
      cases e2 with
      | rel b =>
        simp only [extractPrimitiveBlock]
        rw [htable, extractRelations_equiv _ _ _ hfull]
      | node b => exact he.elim
      | way b => exact he.elim

/-- A node whose two-entry tag map is iterated key `"a"` first. -/
def nodeOrderA : NodeE :=
  ⟨1, [(['a'], ['b']), (['c'], ['d'])], ⟨1, 2, 5000, 3, ['u'], true⟩, 0, 0⟩

/-- The same node with its tag map iterated key `"c"` first. -/
def nodeOrderB : NodeE :=
  ⟨1, [(['c'], ['d']), (['a'], ['b'])], ⟨1, 2, 5000, 3, ['u'], true⟩, 0, 0⟩

/-- Witness for `extractPrimitiveBlock_deterministic`: one node whose
two-entry tag map is iterated in the two possible orders. -/
theorem extractPrimitiveBlock_deterministic_witness :
    List.Forall₂ EntEquiv [Ent.node nodeOrderA] [Ent.node nodeOrderB] ∧
      extractPrimitiveBlock [Ent.node nodeOrderA] =
        extractPrimitiveBlock [Ent.node nodeOrderB] :=
  have hf : List.Forall₂ EntEquiv [Ent.node nodeOrderA] [Ent.node nodeOrderB] :=
    List.Forall₂.cons
      ⟨rfl, rfl, rfl, rfl, List.Perm.swap _ _ _, by decide⟩
      List.Forall₂.nil
  ⟨hf, extractPrimitiveBlock_deterministic _ _ hf⟩

end PBF
